import Mathlib

/-!
Verification of the state/transition/handler engine of
mmikitka/javascript-state-machine, shallowly embedded from
src/StateMachine.js.  The machine facade (construction, configuration
compilation, queries, commands, the handler registry and the event-id
parser) is translated directly from the source.  The Transition module
(src/Transition.js) is imported by the source but is not part of the
sources available here; its behaviour is modelled from the spec where
noted.  Handler callables are external host logic and are represented
opaquely; a dispatch is observable through the machine's trace.
-/

namespace SM

/-- Observable events: a dispatched handler path, or the commit of the state
value performed mid-transition. -/
inductive Ev where
  | dispatch (path : String)
  | commit (state : String)
deriving DecidableEq, Repr

/-- A handler value: either a callable (identified by a number, since host
callables are opaque) or a non-callable argument. -/
inductive HVal where
  | func (id : Nat)
  | nonFunc
deriving DecidableEq, Repr

/-- Modelled from the spec: the phases of the Transition lifecycle driven by
Transition.exec (src/Transition.js is not among the available sources).
The phases follow section 4.4 of the spec: leave handlers, action start
handlers, the state commit, enter handlers, action end handlers, then
natural completion (clear the transition, emit system.change and, when the
new state is the configured final state, system.complete). -/
inductive Step where
  | leave
  | actStart
  | commit
  | enter
  | actEnd
  | finish
deriving DecidableEq, Repr

/-- Modelled from the spec: the ephemeral Transition object
(src/Transition.js is not among the available sources).  It records
the action, the from and to states, the paused flag and the queue of
remaining phases, matching the interface used by StateMachine.js
(Transition.create, exec, pause, resume, clear, .from, .to, .paused). -/
structure Trans where
  action : String
  from_ : String
  to_ : String
  paused : Bool
  queue : List Step
deriving DecidableEq, Repr

/-- A structured transition rule record with name, from and to fields. -/
structure Rule where
  name : String
  from_ : String
  to_ : String
deriving DecidableEq, Repr

/-- A config events entry: a shorthand string or a structured record. -/
inductive Event where
  | str (s : String)
  | record (r : Rule)
deriving DecidableEq, Repr

/-- The construction configuration record (section 6 of the spec):
events, initial, final, defer and handlers.  The debug flag only controls
console output and is not modelled. -/
structure Config where
  events : List Event
  initial : Option String := none
  final : Option String := none
  deferred : Bool := false
  handlers : List (String × HVal) := []
deriving DecidableEq, Repr

/-- The machine.  state uses Option String: none models the JS value
undefined, some "" the initial empty string.  The nested ValueMap for
actions (keys action.from) is modelled with structured pair keys, the
transitions ValueMap (state to duplicate-tolerant action list) and the
handlers ValueMap (path to handler list) as association lists.  initial
and final mirror config.initial (after the compiler defaults it) and
config.final.  trace records every dispatched path in order. -/
structure Machine where
  state : Option String
  states : List String
  transitions : List (String × List String)
  actions : List ((String × String) × String)
  handlers : List (String × List HVal)
  transition : Option Trans
  initial : Option String
  final : Option String
  trace : List Ev
deriving DecidableEq, Repr

/-- The machine as first set up by the StateMachine constructor, before
initialize runs: state is the empty string and all tables are empty. -/
def mkMachine : Machine :=
  { state := some "", states := [], transitions := [], actions := [],
    handlers := [], transition := none, initial := none, final := none,
    trace := [] }

/-- ValueMap.set on the actions table: set the value at key (action, from),
overwriting an existing entry (last write wins), appending otherwise. -/
def setAction (l : List ((String × String) × String)) (k : String × String)
    (v : String) : List ((String × String) × String) :=
  match l with
  | [] => [(k, v)]
  | e :: rest => if e.1 == k then (k, v) :: rest else e :: setAction rest k v

/-- ValueMap.get on the actions table at key action.from. -/
def getAction (l : List ((String × String) × String)) (a s : String) :
    Option String :=
  (l.find? (·.1 == (a, s))).map (·.2)

/-- ValueMap.has(action) on the nested actions table: true when some entry
has this action as its top-level key. -/
def hasAction (m : Machine) (a : String) : Bool :=
  m.actions.any (·.1.1 == a)

/-- ValueMap.add on the transitions table: append the action to the
duplicate-tolerant list at the state key, creating the list if absent. -/
def addTrans (l : List (String × List String)) (k v : String) :
    List (String × List String) :=
  match l with
  | [] => [(k, [v])]
  | e :: rest => if e.1 == k then (e.1, e.2 ++ [v]) :: rest
                 else e :: addTrans rest k v

/-- ValueMap.get on the transitions table; a missing key reads as the
empty list (JS undefined has no members). -/
def transGet (l : List (String × List String)) (k : String) : List String :=
  match l.find? (·.1 == k) with
  | some e => e.2
  | none => []

/-- ValueMap.insert on the handlers table: append the handler to the list
at the path key, creating the list if absent (never overwrites). -/
def insertHandler (l : List (String × List HVal)) (k : String) (v : HVal) :
    List (String × List HVal) :=
  match l with
  | [] => [(k, [v])]
  | e :: rest => if e.1 == k then (e.1, e.2 ++ [v]) :: rest
                 else e :: insertHandler rest k v

/-- StateMachine.prototype.dispatch: invoke the handlers registered at the
path.  The callables are external host logic; the observable effect is the
dispatch itself, recorded on the trace. -/
def dispatch (m : Machine) (path : String) : Machine :=
  { m with trace := m.trace ++ [Ev.dispatch path] }

/-- StateMachine.prototype.update: dispatch name.type (the SystemEvent or
TransitionEvent payload object carries only the type and is not modelled). -/
def update (m : Machine) (name ty : String) : Machine :=
  dispatch m (name ++ "." ++ ty)

/-- StateMachine.prototype.can: the action is available when the
transitions table holds it in the list at the current state. -/
def can (m : Machine) (action : String) : Bool :=
  match m.state with
  | some s => (transGet m.transitions s).contains action
  | none => false

/-- StateMachine.prototype.cannot. -/
def cannot (m : Machine) (action : String) : Bool :=
  ! can m action

/-- StateMachine.prototype.has: whether the state name was collated. -/
def hasState (m : Machine) (s : String) : Bool :=
  m.states.contains s

/-- StateMachine.prototype.isComplete: current state strictly equals the
configured final state (none models JS undefined, and in JS
undefined === undefined holds, which Option equality mirrors). -/
def isComplete (m : Machine) : Bool :=
  m.state == m.final

/-- StateMachine.prototype.isStarted: state is not the empty string. -/
def isStarted (m : Machine) : Bool :=
  m.state != some ""

/-- StateMachine.prototype.isTransitioning. -/
def isTransitioning (m : Machine) : Bool :=
  m.transition.isSome

/-- Modelled from the spec: one phase of Transition.exec
(src/Transition.js is not among the available sources).  State and action
phases dispatch the literal path and then the matching wildcard path;
commit assigns the state value; finish clears the transition and emits
system.change and, when complete, system.complete (section 4.4). -/
def runStep (m : Machine) (t : Trans) : Step → Machine
  | .leave => dispatch (dispatch m ("state." ++ t.from_ ++ ".leave")) "state.*.leave"
  | .actStart => dispatch (dispatch m ("action." ++ t.action ++ ".start")) "action.*.start"
  | .commit => { m with state := some t.to_, trace := m.trace ++ [Ev.commit t.to_] }
  | .enter => dispatch (dispatch m ("state." ++ t.to_ ++ ".enter")) "state.*.enter"
  | .actEnd => dispatch (dispatch m ("action." ++ t.action ++ ".end")) "action.*.end"
  | .finish =>
    let m1 := dispatch { m with transition := none } "system.change"
    if isComplete m1 then dispatch m1 "system.complete" else m1

/-- Modelled from the spec: the Transition.exec driver loop
(src/Transition.js is not among the available sources).  It runs the
queued phases in order, checking the paused flag before each phase
(pausing is cooperative, section 4.4); fuel is the queue length. -/
def execSteps (m : Machine) : Nat → Machine
  | 0 => m
  | n + 1 =>
    match m.transition with
    | none => m
    | some t =>
      if t.paused then m
      else
        match t.queue with
        | [] => m
        | s :: rest =>
          execSteps (runStep { m with transition := some { t with queue := rest } } t s) n

/-- Modelled from the spec: Transition.exec entry point. -/
def exec (m : Machine) : Machine :=
  match m.transition with
  | none => m
  | some t => execSteps m t.queue.length

/-- StateMachine.prototype.do (renamed: do is a Lean keyword): when the
action is available, create the Transition (recording action, the current
state as from, and the resolved target from the actions table as to),
emit transition.start, run it, and return true; otherwise return false. -/
def doAction (m : Machine) (action : String) : Machine × Bool :=
  if can m action then
    let s := (m.state).getD ""
    let t : Trans :=
      { action := action, from_ := s, to_ := (getAction m.actions action s).getD "",
        paused := false,
        queue := [.leave, .actStart, .commit, .enter, .actEnd, .finish] }
    (exec (update { m with transition := some t } "transition" "start"), true)
  else
    (m, false)

/-- StateMachine.prototype.pause: with an active transition, set its
paused flag (modelled Transition.pause) and emit transition.pause;
otherwise do nothing. -/
def pause (m : Machine) : Machine :=
  match m.transition with
  | some t => update { m with transition := some { t with paused := true } } "transition" "pause"
  | none => m

/-- StateMachine.prototype.resume: with an active transition, emit
transition.resume, then clear the paused flag and continue execution from
the remaining phases (modelled Transition.resume); otherwise do nothing. -/
def resume (m : Machine) : Machine :=
  match m.transition with
  | some t =>
    exec { (update m "transition" "resume") with transition := some { t with paused := false } }
  | none => m

/-- StateMachine.prototype.cancel: with an active transition, restore the
state to the transition's recorded from value, discard the transition and
emit transition.cancel; otherwise do nothing. -/
def cancel (m : Machine) : Machine :=
  match m.transition with
  | some t =>
    update { m with state := some t.from_, transition := none } "transition" "cancel"
  | none => m

/-- StateMachine.prototype.end (renamed: end is a Lean keyword): with an
active transition, commit the state to the transition's to value, discard
the transition, emit transition.end then system.change, and emit
system.complete when the new state is the configured final state;
otherwise do nothing. -/
def endTrans (m : Machine) : Machine :=
  match m.transition with
  | some t =>
    let m1 := update (update { m with state := some t.to_, transition := none } "transition" "end") "system" "change"
    if isComplete m1 then update m1 "system" "complete" else m1
  | none => m

/-- StateMachine.prototype.reset: hard-set the state to the supplied or
configured initial state (the argument falls back on falsiness, i.e. when
absent or the empty string), discard any in-flight transition without
running its handlers, and emit system.reset. -/
def reset (m : Machine) (initial : Option String) : Machine :=
  let s := match initial with
           | some i => if i == "" then m.initial else some i
           | none => m.initial
  update { m with state := s, transition := none } "system" "reset"

/-! ### The event-id parser and handler registration (StateMachine.prototype.on) -/

/-- The JS regex word-character class, backslash-w: letters, digits and
the underscore. -/
def isWordChar (c : Char) : Bool :=
  c.isAlphanum || c == '_'

/-- The result of the id regex in StateMachine.prototype.on:
captures (family, type, target). -/
structure IdMatch where
  family : Option String
  type : String
  target : Option String
deriving DecidableEq, Repr

/-- The mandatory second group of the id regex: a word run followed
greedily by any run of word characters, dots and dashes. -/
def matchTypePart (cs : List Char) : Option (String × List Char) :=
  match cs.span isWordChar with
  | ([], _) => none
  | (w, r) =>
    let p := r.span (fun c => isWordChar c || c == '.' || c == '-')
    some (String.mk (w ++ p.1), p.2)

/-- Completing the id regex after the optional family group: match the
type, then an optional colon capturing the rest as the target. -/
def matchTypeTarget (fam : Option String) (rest : List Char) : Option IdMatch :=
  match matchTypePart rest with
  | none => none
  | some (ty, r2) =>
    match r2 with
    | ':' :: r3 => some ⟨fam, ty, some (String.mk r3)⟩
    | _ => some ⟨fam, ty, none⟩

/-- The id regex of StateMachine.prototype.on, anchored at the start:
an optional family group (a word run followed by a dot), the type, and an
optional colon-separated target capture.  When the family group matches
but no type follows, the regex backtracks and retries without the
optional group, as the JS engine does. -/
def parseId (s : String) : Option IdMatch :=
  let cs := s.toList
  match cs.span isWordChar with
  | ([], _) => matchTypeTarget none cs
  | (w, r) =>
    match r with
    | '.' :: r2 =>
      match matchTypeTarget (some (String.mk w)) r2 with
      | some im => some im
      | none => matchTypeTarget none cs
    | _ => matchTypeTarget none cs

/-- The global word-run regex used on the target capture: the list of
maximal word-character runs, in order. -/
def wordTokens (cs : List Char) : List String :=
  let step := fun (c : Char) (acc : List String × List Char) =>
    if isWordChar c then (acc.1, c :: acc.2)
    else if acc.2.isEmpty then acc else (String.mk acc.2 :: acc.1, [])
  let r := cs.foldr step ([], [])
  if r.2.isEmpty then r.1 else String.mk r.2 :: r.1

/-- The eventLookup hash of family types from StateMachine.js. -/
def eventLookup (s : String) : Option String :=
  if s == "change" || s == "update" || s == "complete" || s == "reset" then some "system"
  else if s == "start" || s == "end" then some "action"
  else if s == "leave" || s == "enter" || s == "add" || s == "remove" then some "state"
  else if s == "pause" || s == "resume" || s == "cancel" then some "transition"
  else none

/-- The resolution steps of StateMachine.prototype.on: parse the id, use
the explicit family when present, otherwise consult eventLookup, otherwise
test the type against the known states (family state, type leave, target
the name) and then the known actions (family action, type end, target the
name).  none means no handler is attached (invalid signature, or an
unresolvable id). -/
def onResolve (m : Machine) (id : String) :
    Option (String × String × Option String) :=
  match parseId id with
  | none => none
  | some im =>
    match im.family with
    | some fam => some (fam, im.type, im.target)
    | none =>
      match eventLookup im.type with
      | some fam => some (fam, im.type, im.target)
      | none =>
        if m.states.contains im.type then some ("state", "leave", some im.type)
        else if hasAction m im.type then some ("action", "end", some im.type)
        else none

/-- The addHandler helper of StateMachine.js: a non-callable handler
argument throws an Error; otherwise the handler is appended at the path
family.target.type for the state and action families and family.type for
the others.  The unknown-target warnings are debug console output only. -/
def addHandler (m : Machine) (fam ty tgt : String) (fn : HVal) :
    Except String Machine :=
  match fn with
  | .nonFunc =>
    .error ("Error assigning " ++ fam ++ "." ++ ty ++ " handler; callback is not a Function")
  | .func _ =>
    let path := if fam == "action" || fam == "state"
                then fam ++ "." ++ tgt ++ "." ++ ty
                else fam ++ "." ++ ty
    .ok { m with handlers := insertHandler m.handlers path fn }

/-- The targets of a resolved id in StateMachine.prototype.on: an absent
or empty (falsy) target capture reads as the wildcard star; a present
capture is split into its word tokens, and one with no word tokens reads
as null (on which the JS code then calls map, a TypeError). -/
def targetsOf (tgt? : Option String) : Option (List String) :=
  match tgt? with
  | some t =>
    if t == "" then some ["*"]
    else
      match wordTokens t.toList with
      | [] => none
      | ts => some ts
  | none => some ["*"]

/-- StateMachine.prototype.on: resolve the id (an unresolved id attaches
nothing and is not an error), split the target capture into word tokens,
and add the handler once per target. -/
def on' (m : Machine) (id : String) (fn : HVal) : Except String Machine :=
  match onResolve m id with
  | none => .ok m
  | some (fam, ty, tgt?) =>
    match targetsOf tgt? with
    | none => .error "TypeError: cannot call map on null"
    | some targets =>
      targets.foldlM (fun mm tgt => addHandler mm fam ty tgt fn) m

/-! ### The configuration compiler (StateMachine.prototype.initialize) -/

/-- The addState helper: append the value to the states list when it is a
string not already present (the from and to fields of a shorthand string
event read as undefined, modelled by none). -/
def addState (m : Machine) (s : Option String) : Machine :=
  match s with
  | some v => if m.states.contains v then m else { m with states := m.states ++ [v] }
  | none => m

/-- Reading the from field of a config events entry, as addStates does:
undefined on a shorthand string. -/
def eventFrom : Event → Option String
  | .str _ => none
  | .record r => some r.from_

/-- Reading the to field of a config events entry, as addStates does:
undefined on a shorthand string. -/
def eventTo : Event → Option String
  | .str _ => none
  | .record r => some r.to_

/-- The addStates helper: one pass over the events, collating the value of
the given field of each entry. -/
def addStatesBy (m : Machine) (f : Event → Option String) (es : List Event) :
    Machine :=
  es.foldl (fun mm e => addState mm (f e)) m

/-- StateMachine.prototype.add: record the target in the actions table at
key (action, from) and append the action to the transitions list at from. -/
def add (m : Machine) (action f t : String) : Machine :=
  { m with actions := setAction m.actions (action, f) t,
           transitions := addTrans m.transitions f action }

/-- The shorthand regex of initialize tried at one position: a word run,
optional whitespace, one of pipe colon equals, optional whitespace, a word
run, optional whitespace, one of the three operator characters, optional
whitespace, then a word character followed by the rest of the string.
All quantifiers are effectively deterministic here because the character
classes are disjoint. -/
def tryShorthandAt (cs : List Char) : Option (String × String × Char × String) :=
  match cs.span isWordChar with
  | ([], _) => none
  | (name, r1) =>
    match r1.dropWhile Char.isWhitespace with
    | [] => none
    | c :: r3 =>
      if c == '|' || c == ':' || c == '=' then
        match (r3.dropWhile Char.isWhitespace).span isWordChar with
        | ([], _) => none
        | (fromPart, r5) =>
          match r5.dropWhile Char.isWhitespace with
          | [] => none
          | op :: r7 =>
            if op == '<' || op == '>' || op == '-' then
              match r7.dropWhile Char.isWhitespace with
              | [] => none
              | t :: ts =>
                if isWordChar t then
                  some (String.mk name, String.mk fromPart, op, String.mk (t :: ts))
                else none
            else none
      else none

/-- The unanchored search of the shorthand regex: the match at the first
position where one exists. -/
def matchShorthand : List Char → Option (String × String × Char × String)
  | [] => none
  | c :: rest =>
    match tryShorthandAt (c :: rest) with
    | some r => some r
    | none => matchShorthand rest

/-- One step of the events mapping in initialize: a shorthand string is
matched against the shorthand regex (a failed match makes the JS
destructuring of null throw a TypeError); the dash operator adds a rule
each way, the left operator swaps the operands, otherwise the rule is
added as written.  A structured record adds its fields directly. -/
def applyEvent (m : Machine) (e : Event) : Except String Machine :=
  match e with
  | .str s =>
    match matchShorthand s.toList with
    | none => .error "TypeError: matches is not iterable"
    | some (name, f, op, t) =>
      if op == '-' then .ok (add (add m name f t) name t f)
      else if op == '<' then .ok (add m name t f)
      else .ok (add m name f t)
  | .record r => .ok (add m r.name r.from_ r.to_)

/-- StateMachine.prototype.initialize (renamed: initialise, the source
name is not accepted here): collate the from fields then the to fields of
all events into the states list, default the initial state to the first
collated state when the config gives none (or the empty string, which is
falsy), compile every event into the tables, route the config handler map
through on, and set the state to the initial state unless deferred. -/
def initialise (m : Machine) (cfg : Config) : Except String Machine := do
  let m1 := addStatesBy m eventFrom cfg.events
  let m2 := addStatesBy m1 eventTo cfg.events
  let initial := match cfg.initial with
                 | some i => if i == "" then m2.states.head? else some i
                 | none => m2.states.head?
  let m3 := { m2 with initial := initial, final := cfg.final }
  let m4 ← cfg.events.foldlM applyEvent m3
  let m5 ← cfg.handlers.foldlM (fun mm (p : String × HVal) => on' mm p.1 p.2) m4
  if cfg.deferred then pure m5 else pure { m5 with state := initial }

/-- The StateMachine constructor with a config present: initialize, then
emit system.initialize. -/
def construct (cfg : Config) : Except String Machine :=
  (initialise mkMachine cfg).map (fun m => update m "system" "initialize")

/-- First-occurrence collation: fold a list of names into an accumulator,
appending each name not already present.  This is the state-collection
step of addState expressed on plain lists, used to characterise the
compiled states list. -/
def collate (acc : List String) (xs : List String) : List String :=
  xs.foldl (fun a s => if a.contains s then a else a ++ [s]) acc

/-- The three machine fields that handler registration and rule
compilation never touch: states, trace and state. -/
def proj3 (m : Machine) : List String × List Ev × Option String :=
  (m.states, m.trace, m.state)

/-- A concrete machine for witnesses: the compiled single-rule config
next from a to b with final state b. -/
def machineAB : Machine :=
  (construct { events := [Event.record ⟨"next", "a", "b"⟩], final := some "b" }).toOption.getD mkMachine

/-- A concrete in-flight transition for witnesses: next from a to b,
paused with the commit and later phases still queued. -/
def transMid : Trans :=
  ⟨"next", "a", "b", true, [Step.commit, Step.enter, Step.actEnd, Step.finish]⟩

/-- A concrete machine for witnesses: machineAB part-way through a paused
transition of next from a to b (the leave and action start phases have
run and the commit onwards remain queued). -/
def machineMid : Machine :=
  { machineAB with transition := some transMid }

/-- A concrete config for witnesses: two structured rules. -/
def cfgTwo : Config :=
  { events := [Event.record ⟨"n1", "a", "b"⟩, Event.record ⟨"n2", "c", "d"⟩] }

/-- The machine compiled from cfgTwo. -/
def machineTwo : Machine :=
  (construct cfgTwo).toOption.getD mkMachine

/-- A concrete deferred config for witnesses. -/
def cfgDeferred : Config :=
  { events := [Event.record ⟨"next", "a", "b"⟩], deferred := true }

/-- The machine compiled from cfgDeferred. -/
def machineDeferred : Machine :=
  (construct cfgDeferred).toOption.getD mkMachine

/-! ### Helper lemmas -/

lemma runStep_trace (m : Machine) (t : Trans) (s : Step) :
    ∃ tail, (runStep m t s).trace = m.trace ++ tail := by
  cases s with
  | leave =>
    exact ⟨[Ev.dispatch ("state." ++ t.from_ ++ ".leave"), Ev.dispatch "state.*.leave"],
      by simp [runStep, dispatch]⟩
  | actStart =>
    exact ⟨[Ev.dispatch ("action." ++ t.action ++ ".start"), Ev.dispatch "action.*.start"],
      by simp [runStep, dispatch]⟩
  | commit => exact ⟨[Ev.commit t.to_], by simp [runStep]⟩
  | enter =>
    exact ⟨[Ev.dispatch ("state." ++ t.to_ ++ ".enter"), Ev.dispatch "state.*.enter"],
      by simp [runStep, dispatch]⟩
  | actEnd =>
    exact ⟨[Ev.dispatch ("action." ++ t.action ++ ".end"), Ev.dispatch "action.*.end"],
      by simp [runStep, dispatch]⟩
  | finish =>
    by_cases h : m.state == m.final
    · exact ⟨[Ev.dispatch "system.change", Ev.dispatch "system.complete"],
        by simp [runStep, dispatch, isComplete, h]⟩
    · exact ⟨[Ev.dispatch "system.change"],
        by simp [runStep, dispatch, isComplete, h]⟩

lemma execSteps_trace (n : Nat) :
    ∀ m : Machine, ∃ tail, (execSteps m n).trace = m.trace ++ tail := by
  induction n with
  | zero => intro m; exact ⟨[], by simp [execSteps]⟩
  | succ n ih =>
    intro m
    cases h : m.transition with
    | none => exact ⟨[], by simp [execSteps, h]⟩
    | some t =>
      by_cases hp : t.paused = true
      · exact ⟨[], by simp [execSteps, h, hp]⟩
      · cases hq : t.queue with
        | nil => exact ⟨[], by simp [execSteps, h, hp, hq]⟩
        | cons s rest =>
          obtain ⟨t1, h1⟩ :=
            runStep_trace { m with transition := some { t with queue := rest } } t s
          obtain ⟨t2, h2⟩ :=
            ih (runStep { m with transition := some { t with queue := rest } } t s)
          refine ⟨t1 ++ t2, ?_⟩
          simp only [execSteps, h, hq]
          rw [if_neg hp, h2]
          simp only at h1
          rw [h1]
          simp

/-! ### Claims about cancel, end and the no-transition no-ops -/

/-- C2: with an active (non-terminal) transition, cancel() restores the
state field to the transition's recorded from value, discards the
transition, and emits exactly a transition.cancel notification: no
state.enter, state.leave or action.end handler of that transition is
dispatched, and the discarded transition cannot be resumed. -/
theorem claim2_cancel_restores (m : Machine) (t : Trans)
    (h : m.transition = some t) :
    (cancel m).state = some t.from_
    ∧ (cancel m).transition = none
    ∧ (cancel m).trace = m.trace ++ [Ev.dispatch "transition.cancel"]
    ∧ resume (cancel m) = cancel m := by
  refine ⟨by simp [cancel, h, update, dispatch], by simp [cancel, h, update, dispatch],
    by simp [cancel, h, update, dispatch], ?_⟩
  have hnone : (cancel m).transition = none := by simp [cancel, h, update, dispatch]
  simp [resume, hnone]

/-- C3: with an active transition, end() commits the state field to the
transition's to value without dispatching any of that transition's
remaining handlers, discards the transition, then emits transition.end
followed by system.change, and emits system.complete exactly when the new
state equals the configured final state. -/
theorem claim3_end_commits (m : Machine) (t : Trans)
    (h : m.transition = some t) :
    (endTrans m).state = some t.to_
    ∧ (endTrans m).transition = none
    ∧ (endTrans m).trace = m.trace ++
        ([Ev.dispatch "transition.end", Ev.dispatch "system.change"]
          ++ (if (some t.to_ : Option String) == m.final
              then [Ev.dispatch "system.complete"] else [])) := by
  by_cases hc : (some t.to_ : Option String) == m.final
  · refine ⟨?_, ?_, ?_⟩ <;> simp [endTrans, h, update, dispatch, isComplete, hc]
  · refine ⟨?_, ?_, ?_⟩ <;> simp [endTrans, h, update, dispatch, isComplete, hc]

/-- C10: with no active transition, pause(), resume(), cancel() and end()
all return the machine itself unchanged: the state field is untouched and
nothing is dispatched. -/
theorem claim10_noops (m : Machine) (h : m.transition = none) :
    pause m = m ∧ resume m = m ∧ cancel m = m ∧ endTrans m = m := by
  refine ⟨?_, ?_, ?_, ?_⟩ <;> simp [pause, resume, cancel, endTrans, h]

/-- C5: the shorthand rule "next: a > b > c" is not expanded into the two
directed rules (next, a to b) and (next, b to c): the compiler adds a
single rule whose target is the literal remainder "b > c", because the
shorthand regex captures everything after the first operator as one token
and no chain expansion is performed.  This evaluates the compiler at the
failing input and exhibits the divergence from the claimed two-rule
table. -/
theorem claim5_chain_not_expanded :
    (construct { events := [Event.str "next: a > b > c"] }).toOption.map
        (fun m => (m.actions, m.transitions))
      = some ([(("next", "a"), "b > c")], [("a", ["next"])])
    ∧ ([(("next", "a"), "b > c")] : List ((String × String) × String))
      ≠ [(("next", "a"), "b"), (("next", "b"), "c")] := by
  exact ⟨by decide, by decide⟩

/-- C4: do(action) returns true exactly when the action is permitted from
the current state per the transitions table (can); when it is permitted a
transition is started (transition.start is emitted); when it is not, do
returns false without an error, leaving the machine (state, transition
and everything else) unchanged. -/
theorem claim4_do_returns_can (m : Machine) (a : String) :
    (doAction m a).2 = can m a
    ∧ (can m a = false → doAction m a = (m, false))
    ∧ (can m a = true →
        ∃ rest, (doAction m a).1.trace = m.trace ++ Ev.dispatch "transition.start" :: rest) := by
  refine ⟨?_, ?_, ?_⟩
  · by_cases h : can m a = true
    · simp [doAction, h]
    · simp only [Bool.not_eq_true] at h
      simp [doAction, h]
  · intro h
    simp [doAction, h]
  · intro h
    simp only [doAction, h, if_true]
    set t : Trans :=
      { action := a, from_ := m.state.getD "", to_ := (getAction m.actions a (m.state.getD "")).getD "",
        paused := false,
        queue := [.leave, .actStart, .commit, .enter, .actEnd, .finish] } with ht
    obtain ⟨tail, htail⟩ :=
      execSteps_trace t.queue.length (update { m with transition := some t } "transition" "start")
    refine ⟨tail, ?_⟩
    have hx : exec (update { m with transition := some t } "transition" "start")
        = execSteps (update { m with transition := some t } "transition" "start") t.queue.length := by
      simp [exec, update, dispatch]
    simp only [hx]
    rw [htail]
    simp [update, dispatch]

/-- C1: from a machine whose current state is a, with the single rule
next from a to b compiled into its tables, a successful do of next
commits the state to b, completes the transition, and dispatches in
exactly this order: transition.start, state.a.leave, state.*.leave,
action.next.start, action.*.start, the state commit, state.b.enter,
state.*.enter, action.next.end, action.*.end, system.change, and
system.complete exactly when b equals the configured final state. -/
theorem claim1_do_dispatch_order (m : Machine)
    (h1 : m.state = some "a")
    (h2 : (transGet m.transitions "a").contains "next" = true)
    (h3 : getAction m.actions "next" "a" = some "b") :
    (doAction m "next").2 = true
    ∧ (doAction m "next").1.state = some "b"
    ∧ (doAction m "next").1.transition = none
    ∧ (doAction m "next").1.trace = m.trace ++
        ([Ev.dispatch "transition.start",
          Ev.dispatch "state.a.leave", Ev.dispatch "state.*.leave",
          Ev.dispatch "action.next.start", Ev.dispatch "action.*.start",
          Ev.commit "b",
          Ev.dispatch "state.b.enter", Ev.dispatch "state.*.enter",
          Ev.dispatch "action.next.end", Ev.dispatch "action.*.end",
          Ev.dispatch "system.change"]
         ++ (if (some "b" : Option String) == m.final
             then [Ev.dispatch "system.complete"] else [])) := by
  have hcan : can m "next" = true := by
    simp only [can, h1]
    exact h2
  by_cases hf : (some "b" : Option String) == m.final
  · refine ⟨by simp [doAction, hcan], ?_, ?_, ?_⟩ <;>
      simp [doAction, hcan, h1, h3, exec, execSteps, runStep, update, dispatch, isComplete, hf]
  · refine ⟨by simp [doAction, hcan], ?_, ?_, ?_⟩ <;>
      simp [doAction, hcan, h1, h3, exec, execSteps, runStep, update, dispatch, isComplete, hf]

/-! ### Lemmas about the configuration compiler -/

lemma collate_append (acc xs ys : List String) :
    collate acc (xs ++ ys) = collate (collate acc xs) ys := by
  simp [collate, List.foldl_append]

lemma collate_nodup (xs : List String) :
    ∀ acc : List String, acc.Nodup → (collate acc xs).Nodup := by
  induction xs with
  | nil => intro acc h; simpa [collate] using h
  | cons x xs ih =>
    intro acc h
    by_cases hc : x ∈ acc
    · have he : collate acc (x :: xs) = collate acc xs := by simp [collate, hc]
      rw [he]; exact ih acc h
    · have hx : x ∉ acc := hc
      have h2 : (acc ++ [x]).Nodup := by
        rw [List.nodup_append]
        refine ⟨h, List.nodup_singleton x, ?_⟩
        intro y hy hy2
        simp only [List.mem_singleton] at hy2
        subst hy2
        exact hx hy
      have he : collate acc (x :: xs) = collate (acc ++ [x]) xs := by simp [collate, hc]
      rw [he]; exact ih _ h2

lemma addState_fields (m : Machine) (s : Option String) :
    (addState m s).trace = m.trace ∧ (addState m s).state = m.state := by
  cases s with
  | none => simp [addState]
  | some v =>
    by_cases hc : v ∈ m.states <;> simp [addState, hc]

lemma addStatesBy_fields (es : List Event) :
    ∀ (m : Machine) (f : Event → Option String),
      (addStatesBy m f es).trace = m.trace ∧ (addStatesBy m f es).state = m.state := by
  induction es with
  | nil => intro m f; simp [addStatesBy]
  | cons e es ih =>
    intro m f
    have h1 := addState_fields m (f e)
    have h2 := ih (addState m (f e)) f
    have he : addStatesBy m f (e :: es) = addStatesBy (addState m (f e)) f es := by
      simp [addStatesBy]
    rw [he]
    exact ⟨h2.1.trans h1.1, h2.2.trans h1.2⟩

lemma addStatesBy_states (es : List Event) :
    ∀ (m : Machine) (f : Event → Option String),
      (addStatesBy m f es).states = collate m.states (es.filterMap f) := by
  induction es with
  | nil => intro m f; simp [addStatesBy, collate]
  | cons e es ih =>
    intro m f
    have he : addStatesBy m f (e :: es) = addStatesBy (addState m (f e)) f es := by
      simp [addStatesBy]
    rw [he, ih]
    cases hf : f e with
    | none => simp [addState, hf]
    | some v =>
      by_cases hc : v ∈ m.states <;>
        simp [addState, hf, hc, collate]

lemma addHandler_proj (mm : Machine) (fam ty tgt : String) (fn : HVal)
    (mm' : Machine) (h : addHandler mm fam ty tgt fn = .ok mm') :
    proj3 mm' = proj3 mm := by
  cases fn with
  | nonFunc => simp [addHandler] at h
  | func i =>
    simp only [addHandler, Except.ok.injEq] at h
    rw [← h]
    simp [proj3]

lemma foldlM_proj {β : Type} (f : Machine → β → Except String Machine)
    (hf : ∀ mm b mm', f mm b = .ok mm' → proj3 mm' = proj3 mm) :
    ∀ (l : List β) (mm mm' : Machine),
      l.foldlM f mm = .ok mm' → proj3 mm' = proj3 mm := by
  intro l
  induction l with
  | nil =>
    intro mm mm' h
    simp only [List.foldlM_nil, pure, Except.pure, Except.ok.injEq] at h
    rw [h]
  | cons b l ih =>
    intro mm mm' h
    simp only [List.foldlM_cons, bind, Except.bind] at h
    cases hb : f mm b with
    | error e => rw [hb] at h; cases h
    | ok m1 =>
      rw [hb] at h
      exact (ih m1 mm' h).trans (hf mm b m1 hb)

lemma on_proj (mm : Machine) (id : String) (fn : HVal) (mm' : Machine)
    (h : on' mm id fn = .ok mm') : proj3 mm' = proj3 mm := by
  unfold on' at h
  cases hr : onResolve mm id with
  | none =>
    rw [hr] at h
    simp only [Except.ok.injEq] at h
    rw [h]
  | some r =>
    obtain ⟨fam, ty, tgt?⟩ := r
    rw [hr] at h
    simp only at h
    cases htg : targetsOf tgt? with
    | none => rw [htg] at h; cases h
    | some targets =>
      rw [htg] at h
      exact foldlM_proj _ (fun a b c hh => addHandler_proj a fam ty b fn c hh) targets mm mm' h

lemma applyEvent_proj (mm : Machine) (e : Event) (mm' : Machine)
    (h : applyEvent mm e = .ok mm') : proj3 mm' = proj3 mm := by
  cases e with
  | record r =>
    simp only [applyEvent, Except.ok.injEq] at h
    rw [← h]; simp [add, proj3]
  | str s =>
    simp only [applyEvent] at h
    cases hm : matchShorthand s.toList with
    | none => rw [hm] at h; cases h
    | some r =>
      obtain ⟨name, f, op, t⟩ := r
      rw [hm] at h
      simp only at h
      split_ifs at h <;>
        (simp only [Except.ok.injEq] at h; rw [← h]; simp [add, proj3])

lemma initialise_ok (cfg : Config) (m0 m' : Machine)
    (h : initialise m0 cfg = .ok m') :
    m'.states = collate m0.states
        (cfg.events.filterMap eventFrom ++ cfg.events.filterMap eventTo)
    ∧ m'.trace = m0.trace
    ∧ (cfg.deferred = true → m'.state = m0.state) := by
  unfold initialise at h
  simp only [bind, Except.bind] at h
  cases h4 : cfg.events.foldlM applyEvent
      { addStatesBy (addStatesBy m0 eventFrom cfg.events) eventTo cfg.events with
        initial := match cfg.initial with
                   | some i => if i == ""
                       then (addStatesBy (addStatesBy m0 eventFrom cfg.events) eventTo cfg.events).states.head?
                       else some i
                   | none => (addStatesBy (addStatesBy m0 eventFrom cfg.events) eventTo cfg.events).states.head?,
        final := cfg.final } with
  | error e => rw [h4] at h; cases h
  | ok m4 =>
    rw [h4] at h
    simp only at h
    cases h5 : cfg.handlers.foldlM (fun mm p => on' mm p.1 p.2) m4 with
    | error e => rw [h5] at h; simp only at h; cases h
    | ok m5 =>
      rw [h5] at h
      simp only at h
      have hp4 := foldlM_proj applyEvent applyEvent_proj cfg.events _ m4 h4
      have hp5 := foldlM_proj (fun mm p => on' mm p.1 p.2)
        (fun a b c hh => on_proj a b.1 b.2 c hh) cfg.handlers m4 m5 h5
      have hp45 : proj3 m5 = proj3
          { addStatesBy (addStatesBy m0 eventFrom cfg.events) eventTo cfg.events with
            initial := match cfg.initial with
                       | some i => if i == ""
                           then (addStatesBy (addStatesBy m0 eventFrom cfg.events) eventTo cfg.events).states.head?
                           else some i
                       | none => (addStatesBy (addStatesBy m0 eventFrom cfg.events) eventTo cfg.events).states.head?,
            final := cfg.final } := hp5.trans hp4
      have hstates : m5.states =
          collate m0.states (cfg.events.filterMap eventFrom ++ cfg.events.filterMap eventTo) := by
        have := congrArg Prod.fst hp45
        simp only [proj3] at this
        rw [this, addStatesBy_states, addStatesBy_states, ← collate_append]
      have htrace : m5.trace = m0.trace := by
        have := congrArg (fun p => p.2.1) hp45
        simp only [proj3] at this
        rw [this]
        exact (addStatesBy_fields _ _ _).1.trans (addStatesBy_fields _ _ _).1
      have hstate : m5.state = m0.state := by
        have := congrArg (fun p => p.2.2) hp45
        simp only [proj3] at this
        rw [this]
        exact (addStatesBy_fields _ _ _).2.trans (addStatesBy_fields _ _ _).2
      by_cases hd : cfg.deferred = true
      · rw [hd] at h
        simp only [if_true, pure, Except.pure, Except.ok.injEq] at h
        rw [← h]
        exact ⟨hstates, htrace, fun _ => hstate⟩
      · simp only [Bool.not_eq_true] at hd
        rw [hd] at h
        simp only [Bool.false_eq_true, if_false, pure, Except.pure, Except.ok.injEq] at h
        rw [← h]
        refine ⟨hstates, htrace, ?_⟩
        intro hcontra
        rw [hd] at hcontra
        cases hcontra

lemma construct_ok (cfg : Config) (m : Machine) (h : construct cfg = .ok m) :
    m.states = collate []
        (cfg.events.filterMap eventFrom ++ cfg.events.filterMap eventTo)
    ∧ m.trace = [Ev.dispatch "system.initialize"]
    ∧ (cfg.deferred = true → m.state = some "") := by
  unfold construct at h
  cases hi : initialise mkMachine cfg with
  | error e => rw [hi] at h; cases h
  | ok m0 =>
    rw [hi] at h
    simp only [Except.map, Except.ok.injEq] at h
    obtain ⟨hs, ht, hd⟩ := initialise_ok cfg mkMachine m0 hi
    rw [← h]
    refine ⟨?_, ?_, ?_⟩
    · simpa [update, dispatch, mkMachine] using hs
    · simp [update, dispatch, ht, mkMachine]
    · intro hdef
      simpa [update, dispatch, mkMachine] using hd hdef

/-- C6 counterexample: for the two structured rules (n1, a to b) then
(n2, c to d), the claim's first-occurrence order over each rule's from
and to fields is a, b, c, d, but the compiler collates all from fields
first and then all to fields, producing a, c, b, d. -/
theorem claim6_counterexample :
    (construct { events := [Event.record ⟨"n1", "a", "b"⟩, Event.record ⟨"n2", "c", "d"⟩] }).toOption.map
        Machine.states = some ["a", "c", "b", "d"]
    ∧ (["a", "c", "b", "d"] : List String) ≠ ["a", "b", "c", "d"] :=
  ⟨by decide, by decide⟩

/-- C6 amended: the compiled states list contains no duplicate names, and
its order is the first-occurrence order over the sequence of all
structured rules' from fields (in rule order) followed by all structured
rules' to fields (in rule order); shorthand string rules contribute no
states at all. -/
theorem claim6_states_nodup_order (cfg : Config) (m : Machine)
    (h : construct cfg = .ok m) :
    m.states.Nodup
    ∧ m.states = collate []
        (cfg.events.filterMap eventFrom ++ cfg.events.filterMap eventTo) := by
  obtain ⟨hs, -, -⟩ := construct_ok cfg m h
  exact ⟨hs ▸ collate_nodup _ [] List.nodup_nil, hs⟩

/-- C9 counterexample: a config with defer set still emits
system.initialize at construction (the constructor calls update
unconditionally after initialize whenever a config is supplied), contrary
to the claim that it is emitted iff initialization is not deferred. -/
theorem claim9_counterexample :
    ({ events := [Event.record ⟨"next", "a", "b"⟩], deferred := true } : Config).deferred = true
    ∧ (construct { events := [Event.record ⟨"next", "a", "b"⟩], deferred := true }).toOption.map
        Machine.trace = some [Ev.dispatch "system.initialize"] :=
  ⟨rfl, by decide⟩

/-- C9 amended: whenever construction with a config succeeds,
system.initialize is emitted exactly once at construction regardless of
the defer flag (the trace is exactly that one dispatch), and when defer
is set the state field is left at the empty string after construction. -/
theorem claim9_initialize_emitted (cfg : Config) (m : Machine)
    (h : construct cfg = .ok m) :
    m.trace = [Ev.dispatch "system.initialize"]
    ∧ (cfg.deferred = true → m.state = some "") := by
  obtain ⟨-, ht, hd⟩ := construct_ok cfg m h
  exact ⟨ht, hd⟩

/-! ### Claims about handler registration -/

lemma targetsOf_ne_nil (tgt? : Option String) : targetsOf tgt? ≠ some [] := by
  cases tgt? with
  | none => simp [targetsOf]
  | some t =>
    simp only [targetsOf]
    by_cases ht : (t == "") = true
    · rw [if_pos ht]; simp
    · rw [if_neg ht]
      cases hw : wordTokens t.toList with
      | nil => simp [hw]
      | cons a as => simp [hw]

/-- C8: whenever a registration id resolves to a valid event path, passing
a non-callable handler argument makes registration fail synchronously with
an error (the addHandler check throws before inserting anything, so no
registry entry is added and no machine results). -/
theorem claim8_noncallable_fatal (m : Machine) (id : String)
    (r : String × String × Option String) (h : onResolve m id = some r) :
    ∃ msg, on' m id HVal.nonFunc = Except.error msg := by
  obtain ⟨fam, ty, tgt?⟩ := r
  unfold on'
  rw [h]
  simp only
  cases htg : targetsOf tgt? with
  | none => exact ⟨"TypeError: cannot call map on null", rfl⟩
  | some targets =>
    cases targets with
    | nil => exact absurd htg (targetsOf_ne_nil tgt?)
    | cons tgt rest =>
      refine ⟨"Error assigning " ++ fam ++ "." ++ ty ++ " handler; callback is not a Function", ?_⟩
      simp [List.foldlM_cons, addHandler, bind, Except.bind]

lemma parseId_a : parseId "a" = some ⟨none, "a", none⟩ := by decide

lemma parseId_leave_a : parseId "leave:a" = some ⟨none, "leave", some "a"⟩ := by decide

lemma parseId_next : parseId "next" = some ⟨none, "next", none⟩ := by decide

lemma parseId_at_next : parseId "@next" = none := by decide

lemma eventLookup_a : eventLookup "a" = none := by decide

lemma eventLookup_next : eventLookup "next" = none := by decide

lemma eventLookup_leave : eventLookup "leave" = some "state" := by decide

lemma targetsOf_a : targetsOf (some "a") = some ["a"] := by decide

lemma targetsOf_next : targetsOf (some "next") = some ["next"] := by decide

/-- C7 counterexample: on the compiled machine with known state a,
registering at the bare id a adds the registry entry at path
state.a.leave, but registering at the id state.a.leave itself adds an
entry at the different path state.*.a.leave (the regex reads the family
state and the type a.leave, leaving no target, which defaults to the
wildcard), so the two registrations are not equivalent as the claim
states. -/
theorem claim7_counterexample :
    (on' machineAB "a" (HVal.func 0)).toOption.map Machine.handlers
      = some [("state.a.leave", [HVal.func 0])]
    ∧ (on' machineAB "state.a.leave" (HVal.func 0)).toOption.map Machine.handlers
      = some [("state.*.a.leave", [HVal.func 0])]
    ∧ ([("state.a.leave", [HVal.func 0])] : List (String × List HVal))
      ≠ [("state.*.a.leave", [HVal.func 0])] :=
  ⟨by decide, by decide, by decide⟩

/-- C7 amended: on a machine that knows state a and action next (and has
no state named next), registering at the bare id a adds the handler at
path state.a.leave, the same registration as the id leave:a (not as the
literal id state.a.leave, which the regex reads as family state with type
a.leave); a bare id matching the known action next resolves to family
action, type end, target next, adding the handler at path
action.next.end; and the id at-next does not match the id regex at all,
so it registers nothing and returns the machine unchanged. -/
theorem claim7_bare_id_resolution (m : Machine) (i : Nat)
    (ha : "a" ∈ m.states)
    (hn : "next" ∉ m.states)
    (hact : hasAction m "next" = true) :
    on' m "a" (HVal.func i) = on' m "leave:a" (HVal.func i)
    ∧ on' m "a" (HVal.func i)
        = .ok { m with handlers := insertHandler m.handlers "state.a.leave" (HVal.func i) }
    ∧ on' m "next" (HVal.func i)
        = .ok { m with handlers := insertHandler m.handlers "action.next.end" (HVal.func i) }
    ∧ on' m "@next" (HVal.func i) = .ok m := by
  have h1 : onResolve m "a" = some ("state", "leave", some "a") := by
    unfold onResolve
    rw [parseId_a]
    simp [eventLookup_a, ha]
  have h2 : onResolve m "leave:a" = some ("state", "leave", some "a") := by
    unfold onResolve
    rw [parseId_leave_a]
    simp [eventLookup_leave]
  have h3 : onResolve m "next" = some ("action", "end", some "next") := by
    unfold onResolve
    rw [parseId_next]
    simp [eventLookup_next, hn, hact]
  have h4 : onResolve m "@next" = none := by
    unfold onResolve
    rw [parseId_at_next]
  have key : ∀ id : String, onResolve m id = some ("state", "leave", some "a") →
      on' m id (HVal.func i)
        = .ok { m with handlers := insertHandler m.handlers "state.a.leave" (HVal.func i) } := by
    intro id hid
    unfold on'
    rw [hid]
    simp only
    rw [targetsOf_a]
    simp [List.foldlM_cons, addHandler, bind, Except.bind, pure, Except.pure]
  have e1 := key "a" h1
  have e2 := key "leave:a" h2
  have e3 : on' m "next" (HVal.func i)
      = .ok { m with handlers := insertHandler m.handlers "action.next.end" (HVal.func i) } := by
    unfold on'
    rw [h3]
    simp only
    rw [targetsOf_next]
    simp [List.foldlM_cons, addHandler, bind, Except.bind, pure, Except.pure]
  have e4 : on' m "@next" (HVal.func i) = .ok m := by
    unfold on'
    rw [h4]
  exact ⟨e1.trans e2.symm, e1, e3, e4⟩

/-! ### Witnesses: the claim theorems applied at concrete machines -/

/-- Witness for C1 at the compiled single-rule machine with final b. -/
theorem claim1_witness :
    (machineAB.state = some "a"
      ∧ (transGet machineAB.transitions "a").contains "next" = true
      ∧ getAction machineAB.actions "next" "a" = some "b")
    ∧ ((doAction machineAB "next").2 = true
      ∧ (doAction machineAB "next").1.state = some "b"
      ∧ (doAction machineAB "next").1.transition = none
      ∧ (doAction machineAB "next").1.trace = machineAB.trace ++
          ([Ev.dispatch "transition.start",
            Ev.dispatch "state.a.leave", Ev.dispatch "state.*.leave",
            Ev.dispatch "action.next.start", Ev.dispatch "action.*.start",
            Ev.commit "b",
            Ev.dispatch "state.b.enter", Ev.dispatch "state.*.enter",
            Ev.dispatch "action.next.end", Ev.dispatch "action.*.end",
            Ev.dispatch "system.change"]
           ++ (if (some "b" : Option String) == machineAB.final
               then [Ev.dispatch "system.complete"] else []))) :=
  ⟨⟨by decide, by decide, by decide⟩,
   claim1_do_dispatch_order machineAB (by decide) (by decide) (by decide)⟩

/-- Witness for C2 at a machine with a paused in-flight transition. -/
theorem claim2_witness :
    machineMid.transition = some transMid
    ∧ ((cancel machineMid).state = some transMid.from_
      ∧ (cancel machineMid).transition = none
      ∧ (cancel machineMid).trace = machineMid.trace ++ [Ev.dispatch "transition.cancel"]
      ∧ resume (cancel machineMid) = cancel machineMid) :=
  ⟨by decide, claim2_cancel_restores machineMid transMid (by decide)⟩

/-- Witness for C3 at a machine with a paused in-flight transition. -/
theorem claim3_witness :
    machineMid.transition = some transMid
    ∧ ((endTrans machineMid).state = some transMid.to_
      ∧ (endTrans machineMid).transition = none
      ∧ (endTrans machineMid).trace = machineMid.trace ++
          ([Ev.dispatch "transition.end", Ev.dispatch "system.change"]
            ++ (if (some transMid.to_ : Option String) == machineMid.final
                then [Ev.dispatch "system.complete"] else []))) :=
  ⟨by decide, claim3_end_commits machineMid transMid (by decide)⟩

/-- Witness for C4: a permitted and an unavailable action on the compiled
single-rule machine. -/
theorem claim4_witness :
    (can machineAB "next" = true
      ∧ ∃ rest, (doAction machineAB "next").1.trace
          = machineAB.trace ++ Ev.dispatch "transition.start" :: rest)
    ∧ (can machineAB "missing" = false
      ∧ doAction machineAB "missing" = (machineAB, false)) :=
  ⟨⟨by decide, (claim4_do_returns_can machineAB "next").2.2 (by decide)⟩,
   ⟨by decide, (claim4_do_returns_can machineAB "missing").2.1 (by decide)⟩⟩

/-- Witness for the amended C6 at the two-rule config. -/
theorem claim6_witness :
    construct cfgTwo = Except.ok machineTwo
    ∧ (machineTwo.states.Nodup
      ∧ machineTwo.states = collate []
          (cfgTwo.events.filterMap eventFrom ++ cfgTwo.events.filterMap eventTo)) :=
  ⟨by rfl, claim6_states_nodup_order cfgTwo machineTwo (by rfl)⟩

/-- Witness for the amended C7 at the compiled single-rule machine. -/
theorem claim7_witness :
    ("a" ∈ machineAB.states ∧ "next" ∉ machineAB.states
      ∧ hasAction machineAB "next" = true)
    ∧ (on' machineAB "a" (HVal.func 1) = on' machineAB "leave:a" (HVal.func 1)
      ∧ on' machineAB "a" (HVal.func 1)
          = .ok { machineAB with
                  handlers := insertHandler machineAB.handlers "state.a.leave" (HVal.func 1) }
      ∧ on' machineAB "next" (HVal.func 1)
          = .ok { machineAB with
                  handlers := insertHandler machineAB.handlers "action.next.end" (HVal.func 1) }
      ∧ on' machineAB "@next" (HVal.func 1) = .ok machineAB) :=
  ⟨⟨by decide, by decide, by decide⟩,
   claim7_bare_id_resolution machineAB 1 (by decide) (by decide) (by decide)⟩

/-- Witness for C8 at the id change, which resolves to system.change. -/
theorem claim8_witness :
    onResolve mkMachine "change" = some ("system", "change", none)
    ∧ ∃ msg, on' mkMachine "change" HVal.nonFunc = Except.error msg :=
  ⟨by decide,
   claim8_noncallable_fatal mkMachine "change" ("system", "change", none) (by decide)⟩

/-- Witness for the amended C9 at the deferred config. -/
theorem claim9_witness :
    construct cfgDeferred = Except.ok machineDeferred
    ∧ machineDeferred.trace = [Ev.dispatch "system.initialize"]
    ∧ machineDeferred.state = some "" :=
  ⟨by rfl,
   (claim9_initialize_emitted cfgDeferred machineDeferred (by rfl)).1,
   (claim9_initialize_emitted cfgDeferred machineDeferred (by rfl)).2 (by decide)⟩

/-- Witness for C10 at the idle compiled machine. -/
theorem claim10_witness :
    machineAB.transition = none
    ∧ (pause machineAB = machineAB ∧ resume machineAB = machineAB
      ∧ cancel machineAB = machineAB ∧ endTrans machineAB = machineAB) :=
  ⟨by decide, claim10_noops machineAB (by decide)⟩

end SM
